import Mathlib

/-!
Verification of the knoxite chunk/backend layer.

This file gives a shallow embedding, in Lean 4, of the knoxite source files
`backendmanager.go`, `storage_dropbox.go`, the chunk decode/read path
(`ChunkError`/`decodeChunk`/`loadChunk`/`DecodeArchiveData`/`indexOfChunk`/
`chunkForOffset`/`ReadArchive`) and the `store` command's redundancy check.

Conventions of the embedding:
* Go byte slices become `List Nat`; Go strings become `String`.
* Fallible Go functions returning `(value, error)` become `Except KError value`.
* External collaborators (storage drivers, the Reed-Solomon codec from
  github.com/klauspost/reedsolomon, AES decryption, gzip, SHA-256, the
  Dropbox client) are abstracted as function-valued parameters or structure
  fields; the control flow translated here is exactly the knoxite source.
* Stateful code (the backend manager's round-robin cursor, the set of
  backend calls performed) is modelled by explicit state passing plus an
  explicit call trace, so that placement and fan-out are observable.
* Go `uint` arithmetic is modelled as `Nat` with explicit `% 2^64` where Go
  wraps around (`uintSub`).
* A Go `panic` on the read path is modelled by the dedicated result
  `ReadResult.panicked`.
* `ReadArchive`'s `offset`/`size` are Go `int`s; the embedding uses `Nat`,
  covering exactly the non-negative domain quantified over by the
  specification's random-access property.
-/

namespace Knoxite

/-- `compressed` enum of a chunk: {None, GZip}. -/
inductive CompressionType where
  | none
  | gzip
  deriving DecidableEq, Repr

/-- `encrypted` enum of a chunk: {None, AES}. -/
inductive EncryptionType where
  | none
  | aes
  deriving DecidableEq, Repr

/-- The `Chunk` record of the knoxite data model.  `data` are the write-time
shards (`chunk.Data` in Go, one `List Nat` per Reed-Solomon part). -/
structure Chunk where
  num : Nat
  originalSize : Nat
  size : Nat
  shaSum : String
  decryptedShaSum : String
  compressed : CompressionType
  encrypted : EncryptionType
  dataParts : Nat
  parityParts : Nat
  data : List (List Nat)
  deriving DecidableEq, Repr

/-- `ItemData.Type` enum. -/
inductive ItemType where
  | file
  | directory
  | symLink
  deriving DecidableEq, Repr

/-- The part of `ItemData` used by the chunk read path. -/
structure ItemData where
  path : String
  itype : ItemType
  chunks : List Chunk
  deriving DecidableEq, Repr

/-- The error values surfaced by the embedded code, one constructor per Go
error type/value reachable from the embedded functions.  `indexOutOfRange`
stands for the Go runtime panic on an out-of-range slice index. -/
inductive KError where
  | chunkError (num : Nat)
  | seekError (offset : Nat)
  | eof
  | checkSum (method expected found : String)
  | dataReconstruction (chunk : Chunk) (blocksFound failedBackends : Nat)
  | loadChunkFailed
  | loadSnapshotFailed
  | loadRepositoryFailed
  | redundancyAmount
  | backendFailure (code : Nat)
  | indexOutOfRange
  deriving DecidableEq, Repr

/-- Abstract storage backend: the contract of knoxite's `Backend` interface,
with each operation an opaque function (concrete drivers are out of scope). -/
structure Backend where
  loadChunk : String → Nat → Nat → Except KError (List Nat)
  storeChunk : String → Nat → Nat → List Nat → Except KError Nat
  loadSnapshot : String → Except KError (List Nat)
  saveSnapshot : String → List Nat → Except KError Unit
  initRepository : Except KError Unit
  loadRepository : Except KError (List Nat)
  saveRepository : List Nat → Except KError Unit

/-- `BackendManager` state: ordered backend list plus round-robin cursor. -/
structure BackendManager where
  backends : List Backend
  lastUsedBackend : Nat

/-- The repository as seen by the chunk pipeline: its backend manager and
the repository password. -/
structure Repository where
  backend : BackendManager
  password : String

/-- The first-success loop shared by the manager's `LoadChunk`,
`LoadSnapshot` and `LoadRepository`: try each backend in order, return the
first success, and fall back to the designated error if every backend
errors (backend errors themselves are swallowed). -/
def firstSuccess (f : Backend → Except KError α) (failErr : KError) :
    List Backend → Except KError α
  | [] => .error failErr
  | be :: rest =>
    match f be with
    | .ok b => .ok b
    | .error _ => firstSuccess f failErr rest

/-- `BackendManager.LoadChunk`: first-success fan-out of
`be.LoadChunk(chunk.ShaSum, part, chunk.DataParts)`. -/
def BackendManager.LoadChunk (m : BackendManager) (chunk : Chunk) (part : Nat) :
    Except KError (List Nat) :=
  firstSuccess (fun be => be.loadChunk chunk.shaSum part chunk.dataParts)
    .loadChunkFailed m.backends

/-- `BackendManager.LoadSnapshot`: first-success fan-out of
`be.LoadSnapshot(id)`. -/
def BackendManager.LoadSnapshot (m : BackendManager) (id : String) :
    Except KError (List Nat) :=
  firstSuccess (fun be => be.loadSnapshot id) .loadSnapshotFailed m.backends

/-- `BackendManager.LoadRepository`: first-success fan-out of
`be.LoadRepository()`. -/
def BackendManager.LoadRepository (m : BackendManager) :
    Except KError (List Nat) :=
  firstSuccess (fun be => be.loadRepository) .loadRepositoryFailed m.backends

/-- The sequential all-backend loop shared by `SaveSnapshot`,
`InitRepository` and `SaveRepository`: run `f` on each backend in order,
aborting at the first error.  The first component counts how many backends
were actually invoked (the observable write trace). -/
def saveAll (f : Backend → Except KError Unit) :
    List Backend → Nat × Except KError Unit
  | [] => (0, .ok ())
  | be :: rest =>
    match f be with
    | .error e => (1, .error e)
    | .ok _ =>
      let r := saveAll f rest
      (r.1 + 1, r.2)

/-- `BackendManager.SaveSnapshot`: store a snapshot on all backends. -/
def BackendManager.SaveSnapshot (m : BackendManager) (id : String)
    (b : List Nat) : Nat × Except KError Unit :=
  saveAll (fun be => be.saveSnapshot id b) m.backends

/-- `BackendManager.InitRepository`: init the repository on all backends. -/
def BackendManager.InitRepository (m : BackendManager) :
    Nat × Except KError Unit :=
  saveAll (fun be => be.initRepository) m.backends

/-- `BackendManager.SaveRepository`: store the metadata on all backends. -/
def BackendManager.SaveRepository (m : BackendManager) (b : List Nat) :
    Nat × Except KError Unit :=
  saveAll (fun be => be.saveRepository b) m.backends

/-- One advance of the round-robin cursor, exactly as in the Go source:
`lastUsedBackend++` followed by `if lastUsedBackend+1 > len(backends)
{ lastUsedBackend = 0 }`. -/
def rrNext (n c : Nat) : Nat :=
  let c1 := c + 1
  if n < c1 + 1 then 0 else c1

/-- The shard loop of `BackendManager.StoreChunk`: for each shard (with its
index `i`), advance the cursor, select that backend, and store the shard as
`be.StoreChunk(shasum, i, dparts, shard)`, aborting at the first error.
Returns the call trace (backend index, shard index), the final cursor value,
and the result. -/
def storeChunkGo (bes : List Backend) (shasum : String) (dparts : Nat) :
    Nat → Nat → List (List Nat) →
    List (Nat × Nat) × Nat × Except KError Unit
  | c, _, [] => ([], c, .ok ())
  | c, i, d :: rest =>
    let c1 := rrNext bes.length c
    match bes[c1]? with
    | none => ([], c1, .error .indexOutOfRange)
    | some be =>
      match be.storeChunk shasum i dparts d with
      | .error e => ([(c1, i)], c1, .error e)
      | .ok _ =>
        let r := storeChunkGo bes shasum dparts c1 (i + 1) rest
        ((c1, i) :: r.1, r.2.1, r.2.2)

/-- `BackendManager.StoreChunk`: distribute the chunk's shards round-robin.
Returns the call trace, the manager with its updated cursor, and the result
(`chunk.Size` on success, as in the source). -/
def BackendManager.StoreChunk (m : BackendManager) (chunk : Chunk) :
    List (Nat × Nat) × BackendManager × Except KError Nat :=
  let r := storeChunkGo m.backends chunk.shaSum chunk.dataParts
      m.lastUsedBackend 0 chunk.data
  (r.1, { m with lastUsedBackend := r.2.1 },
    match r.2.2 with
    | .ok _ => .ok chunk.size
    | .error e => .error e)

/-- Store a list of chunks one after another on the same manager,
concatenating the call traces (the "store K chunks" scenario of the
round-robin placement property). -/
def StoreChunkSeq (m : BackendManager) :
    List Chunk → List (Nat × Nat) × BackendManager
  | [] => ([], m)
  | ch :: rest =>
    let r := m.StoreChunk ch
    let r2 := StoreChunkSeq r.2.1 rest
    (r.1 ++ r2.1, r2.2)

/-- The external primitives used by `decodeChunk`: AES decryption (keyed by
the repository password), gunzip, and hex-encoded SHA-256.  They are opaque
parameters of the embedding. -/
structure CryptoPrims where
  decrypt : List Nat → String → Except KError (List Nat)
  gunzip : List Nat → Except KError (List Nat)
  sha256hex : List Nat → String

/-- `decodeChunk`: decrypt (only if the chunk is AES-encrypted), then gunzip
(only if gzip-compressed), then verify the hex SHA-256 of the result against
`chunk.DecryptedShaSum`. -/
def decodeChunk (prims : CryptoPrims) (repository : Repository)
    (chunk : Chunk) (finalData : List Nat) : Except KError (List Nat) :=
  match
    (if chunk.encrypted = EncryptionType.aes then
      prims.decrypt finalData repository.password
    else .ok finalData) with
  | .error e => .error e
  | .ok d1 =>
    match
      (if chunk.compressed = CompressionType.gzip then prims.gunzip d1
      else .ok d1) with
    | .error e => .error e
    | .ok d2 =>
      let shasum := prims.sha256hex d2
      if chunk.decryptedShaSum ≠ shasum then
        .error (.checkSum "sha256" chunk.decryptedShaSum shasum)
      else .ok d2

/-- The two operations of a `reedsolomon` encoder instance used by
`loadChunk`.  `reconstruct` recomputes missing (`none`) shards, `join`
assembles the shard slice into `outSize` bytes; both are opaque parameters
of the embedding (the library is external). -/
structure ReedSolomonEnc where
  reconstruct :
    List (Option (List Nat)) → Except KError (List (Option (List Nat)))
  join : List (Option (List Nat)) → Nat → Except KError (List Nat)

/-- The shard-gathering loop of `loadChunk` for `parityParts > 0`: load
shard `i` from the manager; on failure record `nil` and continue; as soon as
`dataParts` shards are present, reconstruct (if any shard is missing) and
join, decoding the joined buffer; a `reconstruct`/`join` error continues
with the next shard; once every shard index has been tried, fail with
`DataReconstructionError{chunk, parsFound, dataParts - parsFound}`. -/
def loadChunkRSLoop (prims : CryptoPrims) (enc : ReedSolomonEnc)
    (repository : Repository) (chunk : Chunk) :
    Nat → Nat → List (Option (List Nat)) → Nat → Nat →
    Except KError (List Nat)
  | 0, _, _, parsFound, _ =>
    .error (.dataReconstruction chunk parsFound (chunk.dataParts - parsFound))
  | fuel + 1, i, pars, parsFound, parsMissing =>
    match repository.backend.LoadChunk chunk i with
    | .error _ =>
      loadChunkRSLoop prims enc repository chunk fuel (i + 1)
        (pars.set i none) parsFound (parsMissing + 1)
    | .ok data =>
      let pars1 := pars.set i (some data)
      let parsFound1 := parsFound + 1
      if chunk.dataParts ≤ parsFound1 then
        match (if 0 < parsMissing then enc.reconstruct pars1
               else .ok pars1) with
        | .error _ =>
          loadChunkRSLoop prims enc repository chunk fuel (i + 1)
            pars1 parsFound1 parsMissing
        | .ok pars2 =>
          match enc.join pars2 chunk.size with
          | .error _ =>
            loadChunkRSLoop prims enc repository chunk fuel (i + 1)
              pars2 parsFound1 parsMissing
          | .ok buf => decodeChunk prims repository chunk buf
      else
        loadChunkRSLoop prims enc repository chunk fuel (i + 1)
          pars1 parsFound1 parsMissing

/-- `loadChunk`: for erasure-coded chunks run the shard-gathering loop over
all `dataParts + parityParts` shard indices (starting from an all-`nil`
shard slice); otherwise load part 0 directly; decode the resulting payload.
`newEnc` abstracts `reedsolomon.New(dataParts, parityParts)`. -/
def loadChunk (prims : CryptoPrims)
    (newEnc : Nat → Nat → Except KError ReedSolomonEnc)
    (repository : Repository) (chunk : Chunk) : Except KError (List Nat) :=
  if 0 < chunk.parityParts then
    match newEnc chunk.dataParts chunk.parityParts with
    | .error e => .error e
    | .ok enc =>
      loadChunkRSLoop prims enc repository chunk
        (chunk.dataParts + chunk.parityParts) 0
        (List.replicate (chunk.dataParts + chunk.parityParts) none) 0 0
  else
    match repository.backend.LoadChunk chunk 0 with
    | .error e => .error e
    | .ok data => decodeChunk prims repository chunk data

/-- Number of shard indices below `m` whose manager load succeeds for
`chunk`. -/
def countLoadOk (repository : Repository) (chunk : Chunk) (m : Nat) : Nat :=
  (List.range m).countP
    (fun i => (repository.backend.LoadChunk chunk i).isOk)

/-- Number of shard indices in `[0, dataParts + parityParts)` whose manager
load succeeds for `chunk` (the "shards that can be loaded"). -/
def loadSuccessCount (repository : Repository) (chunk : Chunk) : Nat :=
  countLoadOk repository chunk (chunk.dataParts + chunk.parityParts)

/-- The shard slice held by the gathering loop of `loadChunk` once the
indices below `i` have been tried: position `k < i` holds the loaded shard
(or `none` if that load failed), positions `k ≥ i` are still `none`. -/
def parsUpTo (repository : Repository) (chunk : Chunk) (i : Nat) :
    List (Option (List Nat)) :=
  (List.range (chunk.dataParts + chunk.parityParts)).map
    (fun k =>
      if k < i then (repository.backend.LoadChunk chunk k).toOption
      else none)

/-- The scanning loop of `indexOfChunk`: position of the first chunk whose
`Num` equals `chunkNum`, with `k` the index already consumed. -/
def indexOfChunkGo (chunkNum : Nat) : List Chunk → Nat → Option Nat
  | [], _ => none
  | c :: rest, k =>
    if c.num = chunkNum then some k else indexOfChunkGo chunkNum rest (k + 1)

/-- `indexOfChunk`: index of the first chunk with matching `Num`, or
`ChunkError{chunkNum}`. -/
def indexOfChunk (arc : ItemData) (chunkNum : Nat) : Except KError Nat :=
  match indexOfChunkGo chunkNum arc.chunks 0 with
  | some i => .ok i
  | none => .error (.chunkError chunkNum)

/-- The `idx, err := indexOfChunk(arc, num); chunk := arc.Chunks[idx]`
pattern used by every consumer of `indexOfChunk`. -/
def getChunk (arc : ItemData) (chunkNum : Nat) : Except KError Chunk :=
  match indexOfChunk arc chunkNum with
  | .error e => .error e
  | .ok idx =>
    match arc.chunks[idx]? with
    | none => .error (.chunkError chunkNum)
    | some c => .ok c

/-- Reference lookup: the first chunk in the list whose `Num` equals `n`. -/
def chunkByNum : List Chunk → Nat → Option Chunk
  | [], _ => none
  | c :: rest, n => if c.num = n then some c else chunkByNum rest n

/-- The scanning loop of `chunkForOffset`: accumulate `OriginalSize` over
chunk numbers `i = 0, 1, ...` until the cumulative size exceeds `offset`;
then return that chunk's `Num` together with the internal offset.  A failed
`indexOfChunk` becomes `SeekError{offset}`; exhausting the list is `EOF`.
`fuel` counts the remaining iterations (`len(arc.Chunks) - i`). -/
def chunkForOffsetGo (arc : ItemData) (offset : Nat) :
    Nat → Nat → Nat → Except KError (Nat × Nat)
  | 0, _, _ => .error .eof
  | fuel + 1, i, size =>
    match getChunk arc i with
    | .error _ => .error (.seekError offset)
    | .ok chunk =>
      if offset < size + chunk.originalSize then
        .ok (chunk.num, offset - size)
      else
        chunkForOffsetGo arc offset fuel (i + 1) (size + chunk.originalSize)

/-- `chunkForOffset`: resolve a byte offset to (chunk `Num`, offset inside
that chunk). -/
def chunkForOffset (arc : ItemData) (offset : Nat) :
    Except KError (Nat × Nat) :=
  chunkForOffsetGo arc offset arc.chunks.length 0 0

/-- `readArchiveChunk`: load the plaintext of the chunk with the given
`Num`.  The process-wide chunk cache and `loadChunk` pipeline are abstracted
by the `load` parameter (the cache is value-transparent: it maps a chunk to
its decoded plaintext). -/
def readArchiveChunk (load : Chunk → Except KError (List Nat))
    (arc : ItemData) (chunkNum : Nat) : Except KError (List Nat) :=
  match getChunk arc chunkNum with
  | .error e => .error e
  | .ok chunk => load chunk

/-- Result of `ReadArchive`: normal return, error return, or Go `panic`
(the source panics on a failed or empty chunk read inside the loop). -/
inductive ReadResult where
  | ok (dat : List Nat)
  | err (e : KError)
  | panicked
  deriving DecidableEq, Repr

/-- The chunk-appending loop of `ReadArchive`: while fewer than `size` bytes
are collected, read chunk `neededPart`, slice it from `internalOffset`
(subsequent chunks from 0), and append, trimming the final chunk.  A failed
or empty chunk read - including the out-of-range slice of a short chunk -
panics, exactly as in the source.  `fuel` bounds the iterations; callers
pass `size + 1`, which the progress of at least one byte per iteration makes
sufficient. -/
def readArchiveLoop (load : Chunk → Except KError (List Nat))
    (arc : ItemData) (size : Nat) :
    Nat → List Nat → Nat → Nat → ReadResult
  | 0, _, _, _ => .panicked
  | fuel + 1, dat, internalOffset, neededPart =>
    if size ≤ dat.length then .ok dat
    else
      match readArchiveChunk load arc neededPart with
      | .error _ => .panicked
      | .ok b =>
        if b.length = 0 then .panicked
        else if b.length < internalOffset then .panicked
        else
          let d := b.drop internalOffset
          if d.length = 0 then .panicked
          else if size < d.length + dat.length then
            .ok (dat ++ d.take (size - dat.length))
          else
            readArchiveLoop load arc size fuel (dat ++ d) 0 (neededPart + 1)

/-- `ReadArchive`: random-access read of `size` bytes at `offset` from a
`File` archive.  Resolves the starting chunk via `chunkForOffset` (surfacing
its error, in particular `EOF` at or past the end of the file), then runs
the appending loop.  Non-`File` archives return an empty result. -/
def ReadArchive (load : Chunk → Except KError (List Nat)) (arc : ItemData)
    (offset size : Nat) : ReadResult :=
  if arc.itype = ItemType.file then
    match chunkForOffset arc offset with
    | .error e => .err e
    | .ok r => readArchiveLoop load arc size (size + 1) [] r.2 r.1
  else .ok []

/-- The statistics accumulated by `DecodeArchiveData`. -/
structure Stats where
  storageSize : Nat
  size : Nat
  files : Nat
  deriving DecidableEq, Repr

/-- The per-`num` loop of `DecodeArchiveData`: for `i = 0, ...,
len(chunks)-1` look up the chunk whose `Num` is `i`, load its plaintext
(`load` abstracts the cache plus `loadChunk`, as in `readArchiveChunk`),
and append it; any error returns the data collected so far together with
the error.  After the loop, `stats.Files` is incremented.  `fuel` is
`len(arc.Chunks) - i`. -/
def decodeArchiveDataGo (load : Chunk → Except KError (List Nat))
    (arc : ItemData) :
    Nat → Nat → List Nat → Stats → List Nat × Stats × Option KError
  | 0, _, dat, stats => (dat, { stats with files := stats.files + 1 }, none)
  | fuel + 1, i, dat, stats =>
    match getChunk arc i with
    | .error e => (dat, stats, some e)
    | .ok chunk =>
      match load chunk with
      | .error e => (dat, stats, some e)
      | .ok finalData =>
        let dat1 := dat ++ finalData
        let stats1 := { stats with
          storageSize := stats.storageSize + dat1.length,
          size := stats.size + dat1.length }
        decodeArchiveDataGo load arc fuel (i + 1) dat1 stats1

/-- `DecodeArchiveData`: materialize a whole `File` archive in memory by
iterating chunk numbers `0 .. len(chunks)-1`; non-`File` archives yield an
empty result. -/
def DecodeArchiveData (load : Chunk → Except KError (List Nat))
    (arc : ItemData) : List Nat × Stats × Option KError :=
  if arc.itype = ItemType.file then
    decodeArchiveDataGo load arc arc.chunks.length 0 []
      { storageSize := 0, size := 0, files := 0 }
  else ([], { storageSize := 0, size := 0, files := 0 }, none)

/-- The Dropbox client operations used by `StorageDropbox.StoreChunk`:
`metadataSize path` is `some bytes` when `db.Metadata(path, ...)` succeeds
with `entry.Bytes = bytes`, `none` when it errors; `uploadSize path data` is
the `entry.Bytes` reported by `db.UploadByChunk`. -/
structure DropboxClient where
  metadataSize : String → Option Int
  uploadSize : String → List Nat → Int

/-- The fields of `StorageDropbox` used by the chunk store path. -/
structure StorageDropbox where
  chunkPath : String
  db : DropboxClient

/-- The target path of a shard:
`<chunkPath>/<SubDirForChunk(shasum)>/<shasum>.<part>_<totalParts>`.
`subDirForChunk` abstracts the (external to this file) `SubDirForChunk`
helper. -/
def chunkFileName (subDirForChunk : String → String) (chunkPath : String)
    (shasum : String) (part totalParts : Nat) : String :=
  chunkPath ++ "/" ++ subDirForChunk shasum ++ "/" ++ shasum ++ "." ++
    toString part ++ "_" ++ toString totalParts

/-- `StorageDropbox.StoreChunk`: if a blob already exists at the target path
with byte length equal to `len(data)`, skip the write and return stored size
0; otherwise upload the shard.  The second component is the list of uploads
performed (path, data). -/
def StorageDropbox.StoreChunk (subDirForChunk : String → String)
    (backend : StorageDropbox) (shasum : String) (part totalParts : Nat)
    (data : List Nat) : Nat × List (String × List Nat) :=
  let fileName :=
    chunkFileName subDirForChunk backend.chunkPath shasum part totalParts
  match backend.db.metadataSize fileName with
  | some bytes =>
    if bytes = (data.length : Int) then (0, [])
    else
      ((backend.db.uploadSize fileName data).toNat, [(fileName, data)])
  | none =>
    ((backend.db.uploadSize fileName data).toNat, [(fileName, data)])

/-- Go `uint` subtraction (64-bit wraparound): `(a - b) mod 2^64`. -/
def uintSub (a b : Nat) : Nat :=
  (a + (2 ^ 64 - b % 2 ^ 64)) % 2 ^ 64

/-- Outcome of the redundancy check at the head of `CmdStore.store`:
either the `RedundancyAmount` error (returned before `snapshot.Add` streams
anything), or the `(dataParts, parityParts)` pair handed to the pipeline. -/
inductive StoreOutcome where
  | err (e : KError)
  | proceed (dataParts parityParts : Nat)
  deriving DecidableEq, Repr

/-- The redundancy validation of `CmdStore.store`:
`if uint(len(backends)) - tolerance <= 0 { return ErrRedundancyAmount }`,
with Go unsigned subtraction, else invoke the pipeline with
`dataParts = uint(len(backends)) - tolerance` and
`parityParts = tolerance`.  (On `uint`, `<= 0` is `= 0`.) -/
def cmdStoreCheck (numBackends failureTolerance : Nat) : StoreOutcome :=
  if uintSub numBackends failureTolerance = 0 then .err .redundancyAmount
  else .proceed (uintSub numBackends failureTolerance) failureTolerance

/-! Concrete instances used to evaluate the embedded code on specific
inputs (counterexamples and witnesses). -/

/-- A minimal chunk template for concrete instances. -/
def wChunk : Chunk :=
  { num := 0, originalSize := 0, size := 0, shaSum := "s",
    decryptedShaSum := "d", compressed := .none, encrypted := .none,
    dataParts := 1, parityParts := 0, data := [] }

/-- A single-chunk `File` archive holding the three bytes `[1, 2, 3]`. -/
def wArc3 : ItemData :=
  { path := "f", itype := .file,
    chunks := [{ wChunk with num := 0, originalSize := 3 }] }

/-- Chunk loader for `wArc3`: every chunk decodes to `[1, 2, 3]`. -/
def wLoad3 : Chunk → Except KError (List Nat) := fun _ => .ok [1, 2, 3]

/-- A backend whose every operation succeeds. -/
def wBackendOK : Backend :=
  { loadChunk := fun _ _ _ => .ok [5],
    storeChunk := fun _ _ _ _ => .ok 1,
    loadSnapshot := fun _ => .ok [6],
    saveSnapshot := fun _ _ => .ok (),
    initRepository := .ok (),
    loadRepository := .ok [7],
    saveRepository := fun _ => .ok () }

/-- A backend whose every operation fails. -/
def wBackendBad : Backend :=
  { loadChunk := fun _ _ _ => .error (.backendFailure 1),
    storeChunk := fun _ _ _ _ => .error (.backendFailure 1),
    loadSnapshot := fun _ => .error (.backendFailure 1),
    saveSnapshot := fun _ _ => .error (.backendFailure 1),
    initRepository := .error (.backendFailure 1),
    loadRepository := .error (.backendFailure 1),
    saveRepository := fun _ => .error (.backendFailure 1) }

/-- Crypto primitives whose SHA always evaluates to `"d"` (matching
`wChunk.decryptedShaSum`) and whose transforms are identities. -/
def wPrims : CryptoPrims :=
  { decrypt := fun d _ => .ok d, gunzip := fun d => .ok d,
    sha256hex := fun _ => "d" }

/-- A repository with no backends at all. -/
def wRepoEmpty : Repository :=
  { backend := { backends := [], lastUsedBackend := 0 }, password := "" }

/-- A `(2, 1)` erasure-coded chunk. -/
def wChunkRS21 : Chunk := { wChunk with dataParts := 2, parityParts := 1 }

/-- A Reed-Solomon constructor whose codec never succeeds (its operations
are unreachable in the instances using it). -/
def wEncStuck : Nat → Nat → Except KError ReedSolomonEnc :=
  fun _ _ => .ok { reconstruct := fun _ => .error .eof,
                   join := fun _ _ => .error .eof }

/-- An AES-encrypted, gzip-compressed chunk whose recorded hash is `"d"`. -/
def wChunkAG : Chunk :=
  { num := 0, originalSize := 0, size := 0, shaSum := "s",
    decryptedShaSum := "d", compressed := .gzip, encrypted := .aes,
    dataParts := 1, parityParts := 0, data := [] }

/-- Chunk number 0 of the two-chunk archives below. -/
def wc0 : Chunk := { wChunk with num := 0, shaSum := "a" }

/-- Chunk number 1 of the two-chunk archives below. -/
def wc1 : Chunk := { wChunk with num := 1, shaSum := "b" }

/-- A two-chunk `File` archive with the chunk list stored in `num` order. -/
def wArcA : ItemData := { path := "f", itype := .file, chunks := [wc0, wc1] }

/-- The same archive with the chunk list stored in reverse order. -/
def wArcB : ItemData := { path := "f", itype := .file, chunks := [wc1, wc0] }

/-- Chunk loader decoding each chunk to the singleton of its number. -/
def wLoadNum : Chunk → Except KError (List Nat) := fun c => .ok [c.num]

/-- The chunk of `wArcA` with number `i`. -/
def wF : Nat → Chunk := fun i => if i = 0 then wc0 else wc1

/-- A manager with two all-succeeding backends and cursor 0. -/
def wMgr2 : BackendManager := { backends := [wBackendOK, wBackendOK],
                                lastUsedBackend := 0 }

/-- A chunk carrying three one-byte shards. -/
def wChunk3 : Chunk := { wChunk with data := [[1], [2], [3]] }

/-- A backend whose chunk loads yield the shard `[7]`. -/
def wBackend7 : Backend := { wBackendOK with loadChunk := fun _ _ _ => .ok [7] }

/-- A repository with the single backend `wBackend7`. -/
def wRepo7 : Repository :=
  { backend := { backends := [wBackend7], lastUsedBackend := 0 },
    password := "" }

/-- A `(1, 1)` erasure-coded chunk of encoded size 1. -/
def wChunkRS11 : Chunk :=
  { wChunk with dataParts := 1, parityParts := 1, size := 1 }

/-- The true shard list of `wChunkRS11`. -/
def wS : List (List Nat) := [[7], [7]]

/-- A Reed-Solomon codec for shards `wS` with shape `(1, 1)`. -/
def wEnc11 : ReedSolomonEnc :=
  { reconstruct := fun _ => .ok (wS.map some),
    join := fun pars s =>
      if pars.take 1 = (wS.take 1).map some then
        .ok (((wS.take 1).flatten).take s)
      else .error .eof }

/-- Constructor returning `wEnc11`. -/
def wNewEnc11 : Nat → Nat → Except KError ReedSolomonEnc :=
  fun _ _ => .ok wEnc11

/-! ## General lemmas about the fan-out loops -/

theorem firstSuccess_of_first_ok {α : Type} (f : Backend → Except KError α)
    (e : KError) :
    ∀ (l : List Backend) (i : Nat) (be : Backend) (v : α),
      l[i]? = some be → f be = .ok v →
      (∀ j be', j < i → l[j]? = some be' → ∃ er, f be' = .error er) →
      firstSuccess f e l = .ok v := by
  intro l
  induction l with
  | nil => intro i be v h; simp at h
  | cons b rest ih =>
    intro i be v hbe hok hprev
    match i with
    | 0 =>
      simp at hbe
      subst hbe
      simp [firstSuccess, hok]
    | i + 1 =>
      obtain ⟨er, her⟩ := hprev 0 b (Nat.succ_pos i) (by simp)
      simp only [firstSuccess, her]
      exact ih i be v (by simpa using hbe) hok
        (fun j be' hj hbe' => hprev (j + 1) be' (by omega) (by simpa using hbe'))

theorem firstSuccess_error_iff {α : Type} (f : Backend → Except KError α)
    (e : KError) (l : List Backend) :
    firstSuccess f e l = .error e ↔ ∀ be ∈ l, ∃ er, f be = .error er := by
  induction l with
  | nil => simp [firstSuccess]
  | cons b rest ih =>
    cases hb : f b with
    | ok v => simp [firstSuccess, hb]
    | error er =>
      simp only [firstSuccess, hb, ih, List.mem_cons]
      constructor
      · intro h be hbe
        rcases hbe with hbe | hbe
        · exact hbe ▸ ⟨er, hb⟩
        · exact h be hbe
      · intro h be hbe
        exact h be (Or.inr hbe)

theorem saveAll_ok_of_all (f : Backend → Except KError Unit) :
    ∀ l : List Backend, (∀ be ∈ l, f be = .ok ()) →
      saveAll f l = (l.length, .ok ()) := by
  intro l
  induction l with
  | nil => intro _; rfl
  | cons b rest ih =>
    intro h
    have hb : f b = .ok () := h b (List.mem_cons_self b rest)
    simp [saveAll, hb, ih (fun be hbe => h be (List.mem_cons_of_mem b hbe))]

theorem saveAll_ok_iff (f : Backend → Except KError Unit) (l : List Backend) :
    (saveAll f l).2 = .ok () ↔ ∀ be ∈ l, f be = .ok () := by
  induction l with
  | nil => simp [saveAll]
  | cons b rest ih =>
    cases hb : f b with
    | ok u =>
      cases u
      simp [saveAll, hb, ih]
    | error er => simp [saveAll, hb]

theorem saveAll_first_fail (f : Backend → Except KError Unit) :
    ∀ (l : List Backend) (i : Nat) (be : Backend) (e : KError),
      l[i]? = some be → f be = .error e →
      (∀ j be', j < i → l[j]? = some be' → f be' = .ok ()) →
      saveAll f l = (i + 1, .error e) := by
  intro l
  induction l with
  | nil => intro i be e h; simp at h
  | cons b rest ih =>
    intro i be e hbe hfail hprev
    match i with
    | 0 =>
      simp at hbe
      subst hbe
      simp [saveAll, hfail]
    | i + 1 =>
      have hb : f b = .ok () := hprev 0 b (Nat.succ_pos i) (by simp)
      have := ih i be e (by simpa using hbe) hfail
        (fun j be' hj hbe' => hprev (j + 1) be' (by omega) (by simpa using hbe'))
      simp [saveAll, hb, this]

/-! ## Lemmas about chunk lookup by number -/

theorem indexOfChunkGo_shift (n : Nat) :
    ∀ (l : List Chunk) (k : Nat),
      indexOfChunkGo n l k = (indexOfChunkGo n l 0).map (· + k) := by
  intro l
  induction l with
  | nil => intro k; rfl
  | cons c rest ih =>
    intro k
    by_cases hc : c.num = n
    · simp [indexOfChunkGo, hc]
    · simp only [indexOfChunkGo, hc, if_false, ih (k + 1), ih 1,
        Option.map_map]
      cases indexOfChunkGo n rest 0 with
      | none => rfl
      | some j => simp [Function.comp]; omega

theorem getChunk_eq_chunkByNum (arc : ItemData) (n : Nat) :
    getChunk arc n =
      match chunkByNum arc.chunks n with
      | some c => .ok c
      | none => .error (.chunkError n) := by
  have aux : ∀ l : List Chunk,
      (match indexOfChunkGo n l 0 with
        | none => (Except.error (KError.chunkError n) : Except KError Chunk)
        | some idx =>
          match l[idx]? with
          | none => .error (.chunkError n)
          | some c => .ok c) =
      (match chunkByNum l n with
        | some c => .ok c
        | none => .error (.chunkError n)) := by
    intro l
    induction l with
    | nil => rfl
    | cons c rest ih =>
      by_cases hc : c.num = n
      · simp [indexOfChunkGo, chunkByNum, hc]
      · simp only [indexOfChunkGo, chunkByNum, hc, if_false,
          indexOfChunkGo_shift n rest 1]
        cases h1 : indexOfChunkGo n rest 0 with
        | none => simpa [h1] using ih
        | some j => simpa [h1] using ih
  have hu : getChunk arc n =
      (match indexOfChunkGo n arc.chunks 0 with
        | none => (Except.error (KError.chunkError n) : Except KError Chunk)
        | some idx =>
          match arc.chunks[idx]? with
          | none => .error (.chunkError n)
          | some c => .ok c) := by
    unfold getChunk indexOfChunk
    cases indexOfChunkGo n arc.chunks 0 <;> rfl
  rw [hu, aux]

theorem chunkByNum_eq_some (n : Nat) :
    ∀ l : List Chunk, ∀ c, chunkByNum l n = some c → c ∈ l ∧ c.num = n := by
  intro l
  induction l with
  | nil => intro c h; simp [chunkByNum] at h
  | cons b rest ih =>
    intro c h
    by_cases hb : b.num = n
    · simp [chunkByNum, hb] at h
      exact h ▸ ⟨List.mem_cons_self b rest, hb⟩
    · simp only [chunkByNum, hb, if_false] at h
      obtain ⟨hm, hn⟩ := ih c h
      exact ⟨List.mem_cons_of_mem b hm, hn⟩

theorem chunkByNum_eq_none_iff (n : Nat) (l : List Chunk) :
    chunkByNum l n = none ↔ ∀ c ∈ l, c.num ≠ n := by
  induction l with
  | nil => simp [chunkByNum]
  | cons b rest ih =>
    by_cases hb : b.num = n
    · simp [chunkByNum, hb]
    · simp [chunkByNum, hb, ih]

theorem chunkByNum_perm {l l' : List Chunk} (h : l.Perm l')
    (hnd : (l.map Chunk.num).Nodup) (n : Nat) :
    chunkByNum l n = chunkByNum l' n := by
  cases hc : chunkByNum l n with
  | none =>
    rw [chunkByNum_eq_none_iff] at hc
    symm
    rw [chunkByNum_eq_none_iff]
    intro c hmem
    exact hc c (h.mem_iff.mpr hmem)
  | some c =>
    obtain ⟨hmem, hnum⟩ := chunkByNum_eq_some n l c hc
    cases hc' : chunkByNum l' n with
    | none =>
      rw [chunkByNum_eq_none_iff] at hc'
      exact absurd hnum (hc' c (h.mem_iff.mp hmem))
    | some c2 =>
      obtain ⟨hmem2, hnum2⟩ := chunkByNum_eq_some n l' c2 hc'
      have : c = c2 :=
        List.inj_on_of_nodup_map hnd hmem (h.mem_iff.mpr hmem2)
          (by rw [hnum, hnum2])
      rw [this]

theorem decodeArchiveDataGo_congr
    (load : Chunk → Except KError (List Nat)) (arc arc' : ItemData)
    (h : ∀ n, chunkByNum arc.chunks n = chunkByNum arc'.chunks n) :
    ∀ (fuel i : Nat) (dat : List Nat) (stats : Stats),
      decodeArchiveDataGo load arc fuel i dat stats =
        decodeArchiveDataGo load arc' fuel i dat stats := by
  intro fuel
  induction fuel with
  | zero => intro i dat stats; rfl
  | succ fuel ih =>
    intro i dat stats
    have hgc : getChunk arc i = getChunk arc' i := by
      rw [getChunk_eq_chunkByNum, getChunk_eq_chunkByNum, h i]
    cases hg : getChunk arc' i with
    | error e => simp [decodeArchiveDataGo, hgc, hg]
    | ok c =>
      cases hl : load c with
      | error e => simp [decodeArchiveDataGo, hgc, hg, hl]
      | ok finalData =>
        simp only [decodeArchiveDataGo, hgc, hg, hl]
        exact ih _ _ _

theorem decodeArchiveDataGo_complete
    (load : Chunk → Except KError (List Nat)) (arc : ItemData)
    (body : Chunk → List Nat) (f : Nat → Chunk)
    (hf : ∀ i < arc.chunks.length, chunkByNum arc.chunks i = some (f i))
    (hload : ∀ c ∈ arc.chunks, load c = .ok (body c)) :
    ∀ (fuel i : Nat) (dat : List Nat) (stats : Stats),
      i + fuel = arc.chunks.length →
      (decodeArchiveDataGo load arc fuel i dat stats).1 =
        dat ++ ((List.range' i fuel).map (fun k => body (f k))).flatten
      ∧ (decodeArchiveDataGo load arc fuel i dat stats).2.2 = none := by
  intro fuel
  induction fuel with
  | zero =>
    intro i dat stats _
    exact ⟨by simp [decodeArchiveDataGo], rfl⟩
  | succ fuel ih =>
    intro i dat stats hlen
    have hi : i < arc.chunks.length := by omega
    have hcb := hf i hi
    have hmem := (chunkByNum_eq_some i arc.chunks (f i) hcb).1
    simp only [decodeArchiveDataGo, getChunk_eq_chunkByNum, hcb,
      hload (f i) hmem]
    have := ih (i + 1) (dat ++ body (f i))
      { stats with
        storageSize := stats.storageSize + (dat ++ body (f i)).length,
        size := stats.size + (dat ++ body (f i)).length }
      (by omega)
    rw [List.range'_succ]
    simp only [List.map_cons, List.flatten_cons, ← List.append_assoc]
    exact this

theorem decodeArchiveDataGo_missing
    (load : Chunk → Except KError (List Nat)) (arc : ItemData)
    (body : Chunk → List Nat) (i0 : Nat)
    (hmiss : chunkByNum arc.chunks i0 = none)
    (hload : ∀ c ∈ arc.chunks, load c = .ok (body c)) :
    ∀ (fuel i : Nat) (dat : List Nat) (stats : Stats),
      i ≤ i0 → i0 < i + fuel →
      (∀ k, i ≤ k → k < i0 → ∃ c, chunkByNum arc.chunks k = some c) →
      (decodeArchiveDataGo load arc fuel i dat stats).2.2 =
        some (.chunkError i0) := by
  intro fuel
  induction fuel with
  | zero => intro i dat stats h1 h2 _; omega
  | succ fuel ih =>
    intro i dat stats h1 h2 hpres
    by_cases hi : i = i0
    · subst hi
      simp [decodeArchiveDataGo, getChunk_eq_chunkByNum, hmiss]
    · obtain ⟨c, hc⟩ := hpres i (le_refl i) (by omega)
      have hmem := (chunkByNum_eq_some i arc.chunks c hc).1
      simp only [decodeArchiveDataGo, getChunk_eq_chunkByNum, hc,
        hload c hmem]
      exact ih (i + 1) _ _ (by omega) (by omega)
        (fun k hk1 hk2 => hpres k (by omega) hk2)

/-! ## Lemmas about the round-robin cursor and shard placement -/

theorem rrNext_eq_mod (n c : Nat) (h : c < n) :
    rrNext n c = (c + 1) % n := by
  unfold rrNext
  by_cases hc : c + 1 = n
  · rw [if_pos (by omega), hc, Nat.mod_self]
  · rw [if_neg (by omega), Nat.mod_eq_of_lt (by omega)]

theorem mod_two_cases (x n : Nat) (h : x < 2 * n) :
    x % n = if x < n then x else x - n := by
  split
  · exact Nat.mod_eq_of_lt (by assumption)
  · rename_i hx
    rw [Nat.mod_eq_sub_mod (by omega), Nat.mod_eq_of_lt (by omega)]

theorem addConst_mod_eq_iff (n a b t : Nat) (hn : 0 < n) (hb : b < n) :
    (a + t) % n = b ↔ t % n = (n - a % n + b) % n := by
  have ha : a % n < n := Nat.mod_lt a hn
  have ht : t % n < n := Nat.mod_lt t hn
  rw [Nat.add_mod a t n]
  rw [mod_two_cases (a % n + t % n) n (by omega),
    mod_two_cases (n - a % n + b) n (by omega)]
  split_ifs <;> omega

theorem countP_beq_range (r : Nat) :
    ∀ M : Nat, (List.range M).countP (fun t => t == r) =
      if r < M then 1 else 0 := by
  intro M
  induction M with
  | zero => simp
  | succ M ih =>
    rw [List.range_succ, List.countP_append, ih, List.countP_cons]
    simp only [List.countP_nil, beq_iff_eq]
    split_ifs <;> omega

theorem countP_mod_range (n r : Nat) (hn : 0 < n) (hr : r < n) :
    ∀ M : Nat, (List.range M).countP (fun t => t % n == r) =
      M / n + (if r < M % n then 1 else 0) := by
  intro M
  induction M using Nat.strong_induction_on with
  | _ M ih =>
    by_cases hM : M < n
    · have hcg : (List.range M).countP (fun t => t % n == r) =
          (List.range M).countP (fun t => t == r) := by
        apply List.countP_congr
        intro t htm
        have : t < M := List.mem_range.mp htm
        rw [Nat.mod_eq_of_lt (by omega)]
      rw [hcg, countP_beq_range, Nat.div_eq_of_lt hM,
        Nat.mod_eq_of_lt hM]
      omega
    · have h1 : M - n + n = M := by omega
      rw [← h1, List.range_add, List.countP_append, ih (M - n) (by omega)]
      have hwin : ((List.range n).map (fun t => M - n + t)).countP
          (fun t => t % n == r) = 1 := by
        rw [List.countP_map]
        have hcg : (List.range n).countP
            (fun t => ((M - n + t) % n == r)) =
            (List.range n).countP
              (fun t => t == (n - (M - n) % n + r) % n) := by
          apply List.countP_congr
          intro t htm
          have htn : t < n := List.mem_range.mp htm
          have hiff := addConst_mod_eq_iff n (M - n) r t hn hr
          rw [Nat.mod_eq_of_lt htn] at hiff
          cases h2 : ((M - n + t) % n == r) <;>
            cases h3 : (t == (n - (M - n) % n + r) % n) <;> simp_all
        simp only [Function.comp_def]
        rw [hcg, countP_beq_range]
        rw [if_pos (Nat.mod_lt _ hn)]
      rw [Nat.add_div_right _ hn, Nat.add_mod_right, hwin]
      omega

theorem countP_addConst_mod_bounds (n a b : Nat) (hn : 0 < n) (hb : b < n)
    (M : Nat) :
    M / n ≤ (List.range M).countP (fun t => (a + t) % n == b)
    ∧ (List.range M).countP (fun t => (a + t) % n == b) ≤
      (M + n - 1) / n := by
  have hcg : (List.range M).countP (fun t => (a + t) % n == b) =
      (List.range M).countP (fun t => t % n == (n - a % n + b) % n) := by
    apply List.countP_congr
    intro t _
    have hiff := addConst_mod_eq_iff n a b t hn hb
    cases h2 : ((a + t) % n == b) <;>
      cases h3 : (t % n == (n - a % n + b) % n) <;> simp_all
  rw [hcg, countP_mod_range n _ hn (Nat.mod_lt _ hn) M]
  constructor
  · exact Nat.le_add_right _ _
  · split_ifs with hlt
    · rw [Nat.le_div_iff_mul_le hn, Nat.add_mul, Nat.one_mul]
      have hdm := Nat.div_add_mod' M n
      generalize M / n * n = q at hdm ⊢
      omega
    · have : M ≤ M + n - 1 := by omega
      exact Nat.add_le_add_right (Nat.div_le_div_right this) 0 |>.trans
        (by omega)

theorem storeChunkGo_spec (bes : List Backend) (shasum : String)
    (dparts : Nat)
    (hok : ∀ (j : Nat) (be : Backend), bes[j]? = some be →
      ∀ (a : String) (p q : Nat) (d : List Nat),
        ∃ u, be.storeChunk a p q d = .ok u) :
    ∀ (shards : List (List Nat)) (c i : Nat), c < bes.length →
      storeChunkGo bes shasum dparts c i shards =
        ((List.range shards.length).map
          (fun j => ((c + 1 + j) % bes.length, i + j)),
          (c + shards.length) % bes.length, .ok ()) := by
  intro shards
  induction shards with
  | nil =>
    intro c i hc
    simp [storeChunkGo, Nat.mod_eq_of_lt hc]
  | cons d rest ih =>
    intro c i hc
    have hn : 0 < bes.length := by omega
    have hc1 : rrNext bes.length c = (c + 1) % bes.length :=
      rrNext_eq_mod _ _ hc
    have hc1lt : (c + 1) % bes.length < bes.length := Nat.mod_lt _ hn
    obtain ⟨u, hu⟩ := hok ((c + 1) % bes.length) _
      (List.getElem?_eq_getElem hc1lt) shasum i dparts d
    simp only [storeChunkGo, hc1, List.getElem?_eq_getElem hc1lt, hu]
    rw [ih ((c + 1) % bes.length) (i + 1) hc1lt]
    dsimp only [List.length_cons]
    rw [List.range_succ_eq_map, List.map_cons, List.map_map]
    simp only [Prod.mk.injEq, List.cons.injEq]
    refine ⟨⟨by simp, ?_⟩, ?_, trivial⟩
    · apply List.map_congr_left
      intro j _
      simp only [Function.comp_def, Prod.mk.injEq]
      constructor
      · rw [Nat.add_assoc ((c + 1) % bes.length) 1 j, Nat.mod_add_mod]
        congr 1
        omega
      · omega
    · rw [Nat.mod_add_mod]
      congr 1
      omega

theorem storeChunkSeq_spec (bes : List Backend)
    (hok : ∀ (j : Nat) (be : Backend), bes[j]? = some be →
      ∀ (a : String) (p q : Nat) (d : List Nat),
        ∃ u, be.storeChunk a p q d = .ok u) (S : Nat) :
    ∀ (chunks : List Chunk) (c : Nat), c < bes.length →
      (∀ ch ∈ chunks, ch.data.length = S) →
      (StoreChunkSeq (BackendManager.mk bes c) chunks).1.map Prod.fst =
        (List.range (chunks.length * S)).map
          (fun t => (c + 1 + t) % bes.length)
      ∧ (StoreChunkSeq (BackendManager.mk bes c) chunks).2.lastUsedBackend =
          (c + chunks.length * S) % bes.length := by
  intro chunks
  induction chunks with
  | nil =>
    intro c hc _
    exact ⟨by simp [StoreChunkSeq], by
      simp [StoreChunkSeq, Nat.mod_eq_of_lt hc]⟩
  | cons ch rest ih =>
    intro c hc hS
    have hn : 0 < bes.length := by omega
    have hchS : ch.data.length = S := hS ch (List.mem_cons_self ch rest)
    have hgo := storeChunkGo_spec bes ch.shaSum ch.dataParts hok
      ch.data c 0 hc
    have hclt : (c + S) % bes.length < bes.length := Nat.mod_lt _ hn
    have hrest := ih ((c + S) % bes.length) hclt
      (fun x hx => hS x (List.mem_cons_of_mem ch hx))
    have hhead : (List.map (fun j => ((c + 1 + j) % bes.length, 0 + j))
        (List.range S)).map Prod.fst =
        (List.range S).map (fun t => (c + 1 + t) % bes.length) := by
      rw [List.map_map]
      apply List.map_congr_left
      intro j _
      simp [Function.comp_def]
    have htail : (List.range (rest.length * S)).map
        (fun t => ((c + S) % bes.length + 1 + t) % bes.length) =
        (List.range (rest.length * S)).map
          (fun t => (c + 1 + (S + t)) % bes.length) := by
      apply List.map_congr_left
      intro t _
      rw [Nat.add_assoc ((c + S) % bes.length) 1 t, Nat.mod_add_mod]
      congr 1
      omega
    have hsplit : (List.range ((rest.length + 1) * S)).map
        (fun t => (c + 1 + t) % bes.length) =
        (List.range S).map (fun t => (c + 1 + t) % bes.length) ++
          (List.range (rest.length * S)).map
            (fun t => (c + 1 + (S + t)) % bes.length) := by
      rw [Nat.succ_mul, Nat.add_comm (rest.length * S) S, List.range_add,
        List.map_append, List.map_map]
      congr 1
    simp only [StoreChunkSeq, BackendManager.StoreChunk, hgo, hchS,
      List.map_append, List.length_cons]
    rw [hrest.1, hrest.2, hhead, htail, hsplit]
    refine ⟨rfl, ?_⟩
    rw [Nat.mod_add_mod]
    congr 1
    rw [Nat.add_mul, Nat.one_mul]
    all_goals omega

/-! ## Lemmas about the erasure-coded chunk load loop -/

theorem exceptIsOk_iff {ε α : Type} (e : Except ε α) :
    e.isOk = true ↔ ∃ a, e = .ok a := by
  cases e <;> simp [Except.isOk, Except.toBool]

theorem exceptToOption_eq_some {ε α : Type} (e : Except ε α) (x : α) :
    e.toOption = some x ↔ e = .ok x := by
  cases e <;> simp [Except.toOption]

theorem exceptIsOk_toOption {ε α : Type} (e : Except ε α) :
    e.toOption.isSome = e.isOk := by
  cases e <;> rfl

theorem countLoadOk_succ (repository : Repository) (chunk : Chunk)
    (m : Nat) :
    countLoadOk repository chunk (m + 1) =
      countLoadOk repository chunk m +
        (if (repository.backend.LoadChunk chunk m).isOk then 1 else 0) := by
  unfold countLoadOk
  rw [List.range_succ, List.countP_append, List.countP_cons]
  simp

theorem countLoadOk_le (repository : Repository) (chunk : Chunk)
    (a b : Nat) (h : a ≤ b) :
    countLoadOk repository chunk a ≤ countLoadOk repository chunk b := by
  obtain ⟨c, rfl⟩ := Nat.le.dest h
  unfold countLoadOk
  rw [List.range_add, List.countP_append]
  omega

theorem countLoadOk_le_self (repository : Repository) (chunk : Chunk)
    (m : Nat) : countLoadOk repository chunk m ≤ m := by
  unfold countLoadOk
  calc (List.range m).countP _ ≤ (List.range m).length :=
        List.countP_le_length _
    _ = m := List.length_range m

theorem countLoadOk_all_ok (repository : Repository) (chunk : Chunk)
    (m : Nat) (h : countLoadOk repository chunk m = m) :
    ∀ k < m, (repository.backend.LoadChunk chunk k).isOk = true := by
  unfold countLoadOk at h
  have hall := List.countP_eq_length.mp (by rw [h, List.length_range])
  intro k hk
  exact hall k (List.mem_range.mpr hk)

theorem parsUpTo_getElem? (repository : Repository) (chunk : Chunk)
    (i k : Nat) :
    (parsUpTo repository chunk i)[k]? =
      if k < chunk.dataParts + chunk.parityParts then
        some (if k < i then
          (repository.backend.LoadChunk chunk k).toOption
        else none)
      else none := by
  unfold parsUpTo
  rw [List.getElem?_map]
  by_cases hk : k < chunk.dataParts + chunk.parityParts
  · rw [List.getElem?_range hk, if_pos hk]
    rfl
  · rw [List.getElem?_eq_none (by simpa using hk), if_neg hk]
    rfl

theorem parsUpTo_length (repository : Repository) (chunk : Chunk)
    (i : Nat) :
    (parsUpTo repository chunk i).length =
      chunk.dataParts + chunk.parityParts := by
  simp [parsUpTo]

theorem parsUpTo_zero (repository : Repository) (chunk : Chunk) :
    parsUpTo repository chunk 0 =
      List.replicate (chunk.dataParts + chunk.parityParts) none := by
  apply List.ext_getElem?
  intro k
  rw [parsUpTo_getElem?, List.getElem?_replicate]
  by_cases hk : k < chunk.dataParts + chunk.parityParts
  · rw [if_pos hk, if_pos hk, if_neg (by omega : ¬k < 0)]
  · rw [if_neg hk, if_neg hk]

theorem parsUpTo_set (repository : Repository) (chunk : Chunk) (i : Nat)
    (hin : i < chunk.dataParts + chunk.parityParts)
    (v : Option (List Nat))
    (hv : v = (repository.backend.LoadChunk chunk i).toOption) :
    (parsUpTo repository chunk i).set i v =
      parsUpTo repository chunk (i + 1) := by
  apply List.ext_getElem?
  intro k
  rw [List.getElem?_set, parsUpTo_length]
  by_cases hik : i = k
  · subst hik
    rw [if_pos rfl, if_pos hin, parsUpTo_getElem?,
      if_pos hin, if_pos (by omega), hv]
  · rw [if_neg hik, parsUpTo_getElem?, parsUpTo_getElem?]
    by_cases hk : k < chunk.dataParts + chunk.parityParts
    · rw [if_pos hk, if_pos hk]
      by_cases hki : k < i
      · rw [if_pos hki, if_pos (by omega)]
      · rw [if_neg hki, if_neg (by omega)]
    · rw [if_neg hk, if_neg hk]

theorem parsUpTo_countSome (repository : Repository) (chunk : Chunk)
    (i : Nat) (hi : i ≤ chunk.dataParts + chunk.parityParts) :
    (parsUpTo repository chunk i).countP Option.isSome =
      countLoadOk repository chunk i := by
  unfold parsUpTo countLoadOk
  rw [List.countP_map]
  obtain ⟨c, hc⟩ := Nat.le.dest hi
  rw [← hc, List.range_add, List.countP_append]
  have h1 : (List.range i).countP
      (Option.isSome ∘ fun k =>
        if k < i then (repository.backend.LoadChunk chunk k).toOption
        else none) =
      (List.range i).countP
        (fun k => (repository.backend.LoadChunk chunk k).isOk) := by
    apply List.countP_congr
    intro k hk
    have hki : k < i := List.mem_range.mp hk
    simp only [Function.comp_def, if_pos hki]
    rw [exceptIsOk_toOption]
  have h2 : ((List.range c).map (fun t => i + t)).countP
      (Option.isSome ∘ fun k =>
        if k < i then (repository.backend.LoadChunk chunk k).toOption
        else none) = 0 := by
    rw [List.countP_map]
    apply List.countP_eq_zero.mpr
    intro t _
    simp only [Function.comp_def, if_neg (by omega : ¬(i + t < i))]
    simp
  rw [h1, h2]
  omega

theorem parsUpTo_agree (repository : Repository) (chunk : Chunk)
    (S : List (List Nat))
    (hload : ∀ i < chunk.dataParts + chunk.parityParts, ∀ s : List Nat,
      repository.backend.LoadChunk chunk i = .ok s → S[i]? = some s)
    (m k : Nat) (x : List Nat)
    (h : (parsUpTo repository chunk m)[k]? = some (some x)) :
    S[k]? = some x := by
  rw [parsUpTo_getElem?] at h
  by_cases hk : k < chunk.dataParts + chunk.parityParts
  · rw [if_pos hk] at h
    injection h with h1
    by_cases hkm : k < m
    · rw [if_pos hkm] at h1
      exact hload k hk x ((exceptToOption_eq_some _ _).mp h1)
    · rw [if_neg hkm] at h1
      exact absurd h1 (by simp)
  · rw [if_neg hk] at h
    exact absurd h (by simp)

theorem parsUpTo_take (repository : Repository) (chunk : Chunk)
    (S : List (List Nat))
    (hload : ∀ i < chunk.dataParts + chunk.parityParts, ∀ s : List Nat,
      repository.backend.LoadChunk chunk i = .ok s → S[i]? = some s)
    (m : Nat) (hdm : chunk.dataParts ≤ m)
    (hok : ∀ k < chunk.dataParts,
      (repository.backend.LoadChunk chunk k).isOk = true) :
    (parsUpTo repository chunk m).take chunk.dataParts =
      (S.take chunk.dataParts).map some := by
  apply List.ext_getElem?
  intro k
  by_cases hk : k < chunk.dataParts
  · rw [List.getElem?_take_of_lt hk, parsUpTo_getElem?,
      if_pos (by omega), if_pos (by omega)]
    obtain ⟨s, hs⟩ := (exceptIsOk_iff _).mp (hok k hk)
    rw [hs]
    rw [List.getElem?_map, List.getElem?_take_of_lt hk,
      hload k (by omega) s hs]
    rfl
  · rw [List.getElem?_eq_none, List.getElem?_eq_none]
    · rw [List.length_map, List.length_take]
      omega
    · rw [List.length_take, parsUpTo_length]
      omega

theorem loadChunkRSLoop_spec (prims : CryptoPrims) (enc : ReedSolomonEnc)
    (repository : Repository) (chunk : Chunk) (S : List (List Nat))
    (hload : ∀ i < chunk.dataParts + chunk.parityParts, ∀ s : List Nat,
      repository.backend.LoadChunk chunk i = .ok s → S[i]? = some s)
    (hrec : ∀ pars : List (Option (List Nat)),
      pars.length = chunk.dataParts + chunk.parityParts →
      chunk.dataParts ≤ pars.countP Option.isSome →
      (∀ (i : Nat) (x : List Nat), pars[i]? = some (some x) →
        S[i]? = some x) →
      enc.reconstruct pars = .ok (S.map some))
    (hjoin : ∀ pars : List (Option (List Nat)),
      pars.take chunk.dataParts = (S.take chunk.dataParts).map some →
      enc.join pars chunk.size =
        .ok (((S.take chunk.dataParts).flatten).take chunk.size)) :
    ∀ (fuel i : Nat),
      i + fuel = chunk.dataParts + chunk.parityParts →
      countLoadOk repository chunk i < chunk.dataParts →
      loadChunkRSLoop prims enc repository chunk fuel i
        (parsUpTo repository chunk i) (countLoadOk repository chunk i)
        (i - countLoadOk repository chunk i) =
      (if chunk.dataParts ≤ loadSuccessCount repository chunk then
        decodeChunk prims repository chunk
          (((S.take chunk.dataParts).flatten).take chunk.size)
      else
        .error (.dataReconstruction chunk
          (loadSuccessCount repository chunk)
          (chunk.dataParts - loadSuccessCount repository chunk))) := by
  intro fuel
  induction fuel with
  | zero =>
    intro i hi hlt
    have hieq : i = chunk.dataParts + chunk.parityParts := by omega
    subst hieq
    rw [if_neg (by unfold loadSuccessCount; omega)]
    rfl
  | succ fuel ih =>
    intro i hi hlt
    have hin : i < chunk.dataParts + chunk.parityParts := by omega
    have hcle : countLoadOk repository chunk i ≤ i :=
      countLoadOk_le_self repository chunk i
    cases hli : repository.backend.LoadChunk chunk i with
    | error e =>
      have hcnt : countLoadOk repository chunk (i + 1) =
          countLoadOk repository chunk i := by
        rw [countLoadOk_succ, hli]
        rfl
      simp only [loadChunkRSLoop, hli]
      rw [parsUpTo_set repository chunk i hin none (by rw [hli]; rfl)]
      have hmiss : i - countLoadOk repository chunk i + 1 =
          (i + 1) - countLoadOk repository chunk (i + 1) := by omega
      rw [hmiss, show countLoadOk repository chunk i =
        countLoadOk repository chunk (i + 1) from hcnt.symm]
      exact ih (i + 1) (by omega) (by omega)
    | ok s =>
      have hcnt : countLoadOk repository chunk (i + 1) =
          countLoadOk repository chunk i + 1 := by
        rw [countLoadOk_succ, hli]
        rfl
      simp only [loadChunkRSLoop, hli]
      rw [parsUpTo_set repository chunk i hin (some s) (by rw [hli]; rfl)]
      by_cases hreach :
          chunk.dataParts ≤ countLoadOk repository chunk i + 1
      · rw [if_pos hreach]
        have hsucc : chunk.dataParts ≤ loadSuccessCount repository chunk := by
          have hmono := countLoadOk_le repository chunk (i + 1)
            (chunk.dataParts + chunk.parityParts) (by omega)
          unfold loadSuccessCount
          omega
        rw [if_pos hsucc]
        by_cases hmiss : 0 < i - countLoadOk repository chunk i
        · rw [if_pos hmiss]
          simp only [hrec (parsUpTo repository chunk (i + 1))
              (parsUpTo_length _ _ _)
              (by rw [parsUpTo_countSome _ _ _ (by omega)]; omega)
              (fun k x hk =>
                parsUpTo_agree repository chunk S hload (i + 1) k x hk),
            hjoin (S.map some) (by rw [List.map_take])]
        · rw [if_neg hmiss]
          have hcnti : countLoadOk repository chunk i = i := by omega
          have hallok : ∀ k < chunk.dataParts,
              (repository.backend.LoadChunk chunk k).isOk = true := by
            intro k hk
            by_cases hki : k < i
            · exact countLoadOk_all_ok repository chunk i hcnti k hki
            · have hkeq : k = i := by omega
              rw [hkeq, hli]
              rfl
          simp only [hjoin (parsUpTo repository chunk (i + 1))
            (parsUpTo_take repository chunk S hload (i + 1) (by omega)
              hallok)]
      · rw [if_neg hreach]
        have hmiss2 : i - countLoadOk repository chunk i =
            (i + 1) - countLoadOk repository chunk (i + 1) := by omega
        rw [hmiss2, show countLoadOk repository chunk i + 1 =
          countLoadOk repository chunk (i + 1) from hcnt.symm]
        exact ih (i + 1) (by omega) (by omega)

/-! ## Claim theorems -/

/-- C10: a `BackendManager` with an empty backend list succeeds on
`SaveSnapshot`, `SaveRepository` and `InitRepository` without invoking any
backend (zero calls), while `LoadChunk`, `LoadSnapshot` and
`LoadRepository` fail with `ErrLoadChunkFailed`, `ErrLoadSnapshotFailed`
and `ErrLoadRepositoryFailed` respectively. -/
theorem empty_manager_behavior (c : Nat) (id : String) (b : List Nat)
    (chunk : Chunk) (part : Nat) :
    (BackendManager.mk [] c).SaveSnapshot id b = (0, .ok ())
    ∧ (BackendManager.mk [] c).SaveRepository b = (0, .ok ())
    ∧ (BackendManager.mk [] c).InitRepository = (0, .ok ())
    ∧ (BackendManager.mk [] c).LoadChunk chunk part = .error .loadChunkFailed
    ∧ (BackendManager.mk [] c).LoadSnapshot id = .error .loadSnapshotFailed
    ∧ (BackendManager.mk [] c).LoadRepository = .error .loadRepositoryFailed :=
  ⟨rfl, rfl, rfl, rfl, rfl, rfl⟩

/-- C4 (code bug): evaluation of the store command's redundancy check at
the failing input `numBackends = 3`, `failureTolerance = 4`.  Because the
check subtracts in Go `uint` arithmetic, `3 - 4` wraps to `2^64 - 1 > 0`,
the `RedundancyAmount` error is skipped, and the pipeline is invoked with
`dataParts = 2^64 - 1` - whereas the claim (and the error's own message,
"failure tolerance can't be equal or higher as the number of storage
backends") requires the error whenever `tolerance ≥ numBackends`.  Only
the `tolerance = numBackends` case actually errors. -/
theorem cmdStore_redundancy_check_eval :
    cmdStoreCheck 3 4 = .proceed (2 ^ 64 - 1) 4
    ∧ cmdStoreCheck 3 3 = .err .redundancyAmount := by
  constructor <;> rfl

/-- C1 (code bug): evaluation of `ReadArchive` at the failing input: a
one-chunk file of bytes `B = [1, 2, 3]`, `offset = 1`, `size = 5`.  The
claim requires the result `B[1 : min(6, 3)] = [2, 3]`; the code instead
panics once the archive is exhausted before `size` bytes are collected
(the loop treats the failed read of chunk number 1 as a panic).  The same
offset with an in-range size returns exactly the claimed slice. -/
theorem readArchive_overrun_panics :
    ReadArchive wLoad3 wArc3 1 5 = .panicked
    ∧ ReadArchive wLoad3 wArc3 1 2 = .ok [2, 3]
    ∧ ReadArchive wLoad3 wArc3 1 5 ≠ .ok [2, 3] := by
  refine ⟨rfl, rfl, ?_⟩
  decide

/-- C6: `LoadChunk`, `LoadSnapshot` and `LoadRepository` try the backends
in list order and return the first success; each fails with its designated
error (`ErrLoadChunkFailed` / `ErrLoadSnapshotFailed` /
`ErrLoadRepositoryFailed`) exactly when every backend's load errors. -/
theorem manager_load_first_success (m : BackendManager) (chunk : Chunk)
    (part : Nat) (id : String) :
    (∀ (i : Nat) (be : Backend) (v : List Nat), m.backends[i]? = some be →
      be.loadChunk chunk.shaSum part chunk.dataParts = .ok v →
      (∀ (j : Nat) (be' : Backend), j < i → m.backends[j]? = some be' →
        ∃ er, be'.loadChunk chunk.shaSum part chunk.dataParts = .error er) →
      m.LoadChunk chunk part = .ok v)
    ∧ (m.LoadChunk chunk part = .error .loadChunkFailed ↔
        ∀ be ∈ m.backends,
          ∃ er, be.loadChunk chunk.shaSum part chunk.dataParts = .error er)
    ∧ (∀ (i : Nat) (be : Backend) (v : List Nat), m.backends[i]? = some be →
      be.loadSnapshot id = .ok v →
      (∀ (j : Nat) (be' : Backend), j < i → m.backends[j]? = some be' →
        ∃ er, be'.loadSnapshot id = .error er) →
      m.LoadSnapshot id = .ok v)
    ∧ (m.LoadSnapshot id = .error .loadSnapshotFailed ↔
        ∀ be ∈ m.backends, ∃ er, be.loadSnapshot id = .error er)
    ∧ (∀ (i : Nat) (be : Backend) (v : List Nat), m.backends[i]? = some be →
      be.loadRepository = .ok v →
      (∀ (j : Nat) (be' : Backend), j < i → m.backends[j]? = some be' →
        ∃ er, be'.loadRepository = .error er) →
      m.LoadRepository = .ok v)
    ∧ (m.LoadRepository = .error .loadRepositoryFailed ↔
        ∀ be ∈ m.backends, ∃ er, be.loadRepository = .error er) :=
  ⟨fun i be v h1 h2 h3 => firstSuccess_of_first_ok _ _ _ i be v h1 h2 h3,
   firstSuccess_error_iff _ _ _,
   fun i be v h1 h2 h3 => firstSuccess_of_first_ok _ _ _ i be v h1 h2 h3,
   firstSuccess_error_iff _ _ _,
   fun i be v h1 h2 h3 => firstSuccess_of_first_ok _ _ _ i be v h1 h2 h3,
   firstSuccess_error_iff _ _ _⟩

/-- C6 witness: on the backend list `[bad, ok]`, `LoadChunk` skips the
failing backend and returns the second backend's bytes, while on `[bad]`
alone it fails with `ErrLoadChunkFailed`. -/
theorem manager_load_first_success_witness :
    (BackendManager.mk [wBackendBad, wBackendOK] 0).LoadChunk wChunk 0 =
      .ok [5]
    ∧ (BackendManager.mk [wBackendBad] 0).LoadSnapshot "id" =
      .error .loadSnapshotFailed := by
  constructor
  · exact (manager_load_first_success
        (BackendManager.mk [wBackendBad, wBackendOK] 0) wChunk 0 "id").1
      1 wBackendOK [5] (by simp) rfl
      (by
        intro j be' hj hbe'
        match j, hj with
        | 0, _ =>
          simp at hbe'
          exact hbe' ▸ ⟨.backendFailure 1, rfl⟩)
  · exact (manager_load_first_success
        (BackendManager.mk [wBackendBad] 0) wChunk 0 "id").2.2.2.1.2
      (by
        intro be hbe
        simp at hbe
        exact hbe ▸ ⟨.backendFailure 1, rfl⟩)

/-- C7: `SaveSnapshot`, `SaveRepository` and `InitRepository` run the
corresponding backend operation on every backend sequentially in list
order; the first failing backend's error is returned immediately with no
later backend invoked (the call count is `i + 1`); the call succeeds (with
all `length` backends invoked) exactly when every backend succeeds. -/
theorem manager_save_fanout (m : BackendManager) (id : String)
    (b : List Nat) :
    (∀ (i : Nat) (be : Backend) (e : KError), m.backends[i]? = some be →
      be.saveSnapshot id b = .error e →
      (∀ (j : Nat) (be' : Backend), j < i → m.backends[j]? = some be' →
        be'.saveSnapshot id b = .ok ()) →
      m.SaveSnapshot id b = (i + 1, .error e))
    ∧ ((m.SaveSnapshot id b).2 = .ok () ↔
        ∀ be ∈ m.backends, be.saveSnapshot id b = .ok ())
    ∧ ((∀ be ∈ m.backends, be.saveSnapshot id b = .ok ()) →
        m.SaveSnapshot id b = (m.backends.length, .ok ()))
    ∧ (∀ (i : Nat) (be : Backend) (e : KError), m.backends[i]? = some be →
      be.saveRepository b = .error e →
      (∀ (j : Nat) (be' : Backend), j < i → m.backends[j]? = some be' →
        be'.saveRepository b = .ok ()) →
      m.SaveRepository b = (i + 1, .error e))
    ∧ ((m.SaveRepository b).2 = .ok () ↔
        ∀ be ∈ m.backends, be.saveRepository b = .ok ())
    ∧ ((∀ be ∈ m.backends, be.saveRepository b = .ok ()) →
        m.SaveRepository b = (m.backends.length, .ok ()))
    ∧ (∀ (i : Nat) (be : Backend) (e : KError), m.backends[i]? = some be →
      be.initRepository = .error e →
      (∀ (j : Nat) (be' : Backend), j < i → m.backends[j]? = some be' →
        be'.initRepository = .ok ()) →
      m.InitRepository = (i + 1, .error e))
    ∧ ((m.InitRepository).2 = .ok () ↔
        ∀ be ∈ m.backends, be.initRepository = .ok ())
    ∧ ((∀ be ∈ m.backends, be.initRepository = .ok ()) →
        m.InitRepository = (m.backends.length, .ok ())) :=
  ⟨fun i be e h1 h2 h3 => saveAll_first_fail _ _ i be e h1 h2 h3,
   saveAll_ok_iff _ _,
   fun h => saveAll_ok_of_all _ _ h,
   fun i be e h1 h2 h3 => saveAll_first_fail _ _ i be e h1 h2 h3,
   saveAll_ok_iff _ _,
   fun h => saveAll_ok_of_all _ _ h,
   fun i be e h1 h2 h3 => saveAll_first_fail _ _ i be e h1 h2 h3,
   saveAll_ok_iff _ _,
   fun h => saveAll_ok_of_all _ _ h⟩

/-- C7 witness: on `[ok, bad, ok]`, `SaveSnapshot` stops after the second
backend (two calls, the bad backend's error); on `[ok, ok]` it succeeds
with both backends written. -/
theorem manager_save_fanout_witness :
    (BackendManager.mk [wBackendOK, wBackendBad, wBackendOK] 0).SaveSnapshot
      "id" [1] = (2, .error (.backendFailure 1))
    ∧ (BackendManager.mk [wBackendOK, wBackendOK] 0).SaveRepository [1] =
      (2, .ok ()) := by
  constructor
  · exact (manager_save_fanout
        (BackendManager.mk [wBackendOK, wBackendBad, wBackendOK] 0)
        "id" [1]).1 1 wBackendBad (.backendFailure 1) (by simp) rfl
      (by
        intro j be' hj hbe'
        match j, hj with
        | 0, _ =>
          simp at hbe'
          exact hbe' ▸ rfl)
  · exact (manager_save_fanout
        (BackendManager.mk [wBackendOK, wBackendOK] 0) "id" [1]).2.2.2.2.2.1
      (by
        intro be hbe
        simp at hbe
        exact hbe ▸ rfl)

/-- C8: a Dropbox `StoreChunk` that finds a blob at the target path whose
byte length equals `len(data)` performs no upload and returns stored size
0; when the metadata probe fails or reports a different length, the shard
is uploaded to the target path. -/
theorem dropbox_storeChunk_dedup (subDirForChunk : String → String)
    (backend : StorageDropbox) (shasum : String) (part totalParts : Nat)
    (data : List Nat) :
    (∀ L,
      backend.db.metadataSize
          (chunkFileName subDirForChunk backend.chunkPath shasum part
            totalParts) = some L →
      L = (data.length : Int) →
      backend.StoreChunk subDirForChunk shasum part totalParts data =
        (0, []))
    ∧ ((∀ L,
        backend.db.metadataSize
            (chunkFileName subDirForChunk backend.chunkPath shasum part
              totalParts) = some L →
        L ≠ (data.length : Int)) →
      backend.StoreChunk subDirForChunk shasum part totalParts data =
        ((backend.db.uploadSize
            (chunkFileName subDirForChunk backend.chunkPath shasum part
              totalParts) data).toNat,
          [(chunkFileName subDirForChunk backend.chunkPath shasum part
              totalParts, data)])) := by
  constructor
  · intro L hmeta hlen
    simp [StorageDropbox.StoreChunk, hmeta, hlen]
  · intro h
    unfold StorageDropbox.StoreChunk
    cases hmeta :
        backend.db.metadataSize
          (chunkFileName subDirForChunk backend.chunkPath shasum part
            totalParts) with
    | none => simp [hmeta]
    | some L => simp [hmeta, h L hmeta]

/-- C8 witness: with a client reporting an existing 3-byte blob, storing a
3-byte shard is a no-op with stored size 0; storing a 2-byte shard
uploads it. -/
theorem dropbox_storeChunk_dedup_witness :
    (StorageDropbox.mk "p" (DropboxClient.mk (fun _ => some 3)
        (fun _ d => Int.ofNat d.length))).StoreChunk
      (fun s => s.take 2) "abcd" 0 1 [1, 2, 3] = (0, [])
    ∧ (StorageDropbox.mk "p" (DropboxClient.mk (fun _ => some 3)
        (fun _ d => Int.ofNat d.length))).StoreChunk
      (fun s => s.take 2) "abcd" 0 1 [1, 2] =
      (2, [(chunkFileName (fun s => s.take 2) "p" "abcd" 0 1, [1, 2])]) := by
  constructor
  · exact (dropbox_storeChunk_dedup (fun s => s.take 2)
      (StorageDropbox.mk "p" (DropboxClient.mk (fun _ => some 3)
        (fun _ d => Int.ofNat d.length))) "abcd" 0 1 [1, 2, 3]).1
      3 rfl rfl
  · exact (dropbox_storeChunk_dedup (fun s => s.take 2)
      (StorageDropbox.mk "p" (DropboxClient.mk (fun _ => some 3)
        (fun _ d => Int.ofNat d.length))) "abcd" 0 1 [1, 2]).2
      (by intro L hL; injection hL with h; subst h; decide)

/-- C5: `decodeChunk` first decrypts (only for AES-encrypted chunks, with
the repository password), then gunzips (only for gzip-compressed chunks);
writing `P` for the transformed payload, it fails with
`CheckSumError{"sha256", chunk.DecryptedShaSum, sha256hex(P)}` exactly
when the computed hash differs from `chunk.DecryptedShaSum`, and returns
`P` otherwise. -/
theorem decodeChunk_transform_integrity (prims : CryptoPrims)
    (repository : Repository) (chunk : Chunk) (finalData d1 P : List Nat)
    (h1 : (if chunk.encrypted = EncryptionType.aes then
        prims.decrypt finalData repository.password
      else .ok finalData) = .ok d1)
    (h2 : (if chunk.compressed = CompressionType.gzip then prims.gunzip d1
      else .ok d1) = .ok P) :
    (decodeChunk prims repository chunk finalData =
        .error (.checkSum "sha256" chunk.decryptedShaSum
          (prims.sha256hex P)) ↔
      prims.sha256hex P ≠ chunk.decryptedShaSum)
    ∧ (prims.sha256hex P = chunk.decryptedShaSum →
      decodeChunk prims repository chunk finalData = .ok P) := by
  have key : decodeChunk prims repository chunk finalData =
      (if chunk.decryptedShaSum ≠ prims.sha256hex P then
        .error (.checkSum "sha256" chunk.decryptedShaSum
          (prims.sha256hex P))
      else .ok P) := by
    simp only [decodeChunk, h1, h2]
  rw [key]
  by_cases hc : chunk.decryptedShaSum = prims.sha256hex P
  · simp [hc]
  · simp [hc, Ne.symm hc]

/-- C5 witness: an AES+gzip chunk whose transformed payload hashes to the
recorded `decryptedShaSum` decodes to that payload. -/
theorem decodeChunk_transform_integrity_witness :
    decodeChunk
      (CryptoPrims.mk (fun d _ => .ok (d ++ [1])) (fun d => .ok (d ++ [2]))
        (fun _ => "d"))
      wRepoEmpty wChunkAG [0] = .ok [0, 1, 2] :=
  (decodeChunk_transform_integrity
    (CryptoPrims.mk (fun d _ => .ok (d ++ [1])) (fun d => .ok (d ++ [2]))
      (fun _ => "d"))
    wRepoEmpty wChunkAG [0] [0, 1] [0, 1, 2] (by rfl) (by rfl)).2 rfl

/-- C9: whole-archive decoding looks chunks up by their `Num` field.
(1) For a `File` archive with pairwise distinct chunk numbers, permuting
the stored chunk list does not change the result of `DecodeArchiveData`.
(2) When for every `i < len(chunks)` the first chunk with `Num = i` is
`f i` and every chunk loads as `body`, the output is the concatenation of
`body (f 0), ..., body (f (len-1))`, with no error.  (3) When no chunk has
`Num = i0` for some `i0 < len(chunks)` (and numbers below `i0` are all
present and loadable), the operation fails with `ChunkError{i0}`. -/
theorem decodeArchiveData_lookup_by_num
    (load : Chunk → Except KError (List Nat)) (arc arc' : ItemData)
    (body : Chunk → List Nat) (f : Nat → Chunk) (i0 : Nat) :
    (arc.itype = .file → arc'.itype = .file →
      arc.chunks.Perm arc'.chunks → (arc.chunks.map Chunk.num).Nodup →
      DecodeArchiveData load arc = DecodeArchiveData load arc')
    ∧ (arc.itype = .file →
      (∀ i < arc.chunks.length, chunkByNum arc.chunks i = some (f i)) →
      (∀ c ∈ arc.chunks, load c = .ok (body c)) →
      (DecodeArchiveData load arc).1 =
        ((List.range arc.chunks.length).map (fun k => body (f k))).flatten
      ∧ (DecodeArchiveData load arc).2.2 = none)
    ∧ (arc.itype = .file → i0 < arc.chunks.length →
      (∀ k < i0, ∃ c ∈ arc.chunks, c.num = k) →
      (∀ c ∈ arc.chunks, c.num ≠ i0) →
      (∀ c ∈ arc.chunks, load c = .ok (body c)) →
      (DecodeArchiveData load arc).2.2 = some (.chunkError i0)) := by
  refine ⟨?_, ?_, ?_⟩
  · intro ht ht' hperm hnd
    unfold DecodeArchiveData
    rw [ht, ht', hperm.length_eq]
    simp only [if_pos rfl]
    exact decodeArchiveDataGo_congr load arc arc'
      (fun n => chunkByNum_perm hperm hnd n) _ _ _ _
  · intro ht hf hload
    unfold DecodeArchiveData
    rw [ht]
    simp only [if_pos rfl]
    have := decodeArchiveDataGo_complete load arc body f hf hload
      arc.chunks.length 0 [] { storageSize := 0, size := 0, files := 0 }
      (by omega)
    rw [List.range_eq_range']
    exact ⟨by simpa using this.1, this.2⟩
  · intro ht hi0 hpres hmiss hload
    unfold DecodeArchiveData
    rw [ht]
    simp only [if_pos rfl]
    have hnone : chunkByNum arc.chunks i0 = none :=
      (chunkByNum_eq_none_iff i0 arc.chunks).mpr hmiss
    refine decodeArchiveDataGo_missing load arc body i0 hnone hload
      arc.chunks.length 0 [] _ (by omega) (by omega) ?_
    intro k _ hk
    obtain ⟨c, hcm, hcn⟩ := hpres k hk
    cases hc : chunkByNum arc.chunks k with
    | none =>
      rw [chunkByNum_eq_none_iff] at hc
      exact absurd hcn (hc c hcm)
    | some c2 => exact ⟨c2, rfl⟩

/-- C9 witness: the two-chunk archive decoded in stored order and in
reversed stored order yields the same result, namely bytes `[0, 1]` with no
error. -/
theorem decodeArchiveData_lookup_by_num_witness :
    DecodeArchiveData wLoadNum wArcA = DecodeArchiveData wLoadNum wArcB
    ∧ (DecodeArchiveData wLoadNum wArcA).1 = [0, 1]
    ∧ (DecodeArchiveData wLoadNum wArcA).2.2 = none := by
  refine ⟨?_, ?_, ?_⟩
  · exact (decodeArchiveData_lookup_by_num wLoadNum wArcA wArcB
      (fun c => [c.num]) wF 0).1 rfl rfl (by decide) (by decide)
  · have h := ((decodeArchiveData_lookup_by_num wLoadNum wArcA wArcB
      (fun c => [c.num]) wF 0).2.1 rfl (by decide)
      (by intro c hc; simp [wArcA] at hc; rcases hc with rfl | rfl <;> rfl)).1
    rw [h]
    decide
  · exact ((decodeArchiveData_lookup_by_num wLoadNum wArcA wArcB
      (fun c => [c.num]) wF 0).2.1 rfl (by decide)
      (by intro c hc; simp [wArcA] at hc; rcases hc with rfl | rfl <;> rfl)).2

/-- C2 (amended): for a chunk with `parityParts > 0` - with the
Reed-Solomon codec abstracted by `hrec`/`hjoin` (any `dataParts` present
shards agreeing with the true shard list `S` reconstruct all of `S`; a
shard slice whose first `dataParts` entries are the true data shards joins
to the first `chunk.size` bytes of their concatenation) - if at least
`dataParts` of the `dataParts + parityParts` shard loads succeed,
`loadChunk` returns the decode of a joined buffer of exactly `chunk.size`
bytes; if fewer than `dataParts` loads succeed after trying every shard
index, it fails with `DataReconstructionError` whose `blocks_found` is the
number of successful loads and whose `failed_backends` is `dataParts`
minus `blocks_found`. -/
theorem loadChunk_erasure_tolerance (prims : CryptoPrims)
    (newEnc : Nat → Nat → Except KError ReedSolomonEnc)
    (enc : ReedSolomonEnc) (repository : Repository) (chunk : Chunk)
    (S : List (List Nat))
    (hp : 0 < chunk.parityParts)
    (hd : 0 < chunk.dataParts)
    (henc : newEnc chunk.dataParts chunk.parityParts = .ok enc)
    (hload : ∀ i < chunk.dataParts + chunk.parityParts, ∀ s : List Nat,
      repository.backend.LoadChunk chunk i = .ok s → S[i]? = some s)
    (hrec : ∀ pars : List (Option (List Nat)),
      pars.length = chunk.dataParts + chunk.parityParts →
      chunk.dataParts ≤ pars.countP Option.isSome →
      (∀ (i : Nat) (x : List Nat), pars[i]? = some (some x) →
        S[i]? = some x) →
      enc.reconstruct pars = .ok (S.map some))
    (hjoin : ∀ pars : List (Option (List Nat)),
      pars.take chunk.dataParts = (S.take chunk.dataParts).map some →
      enc.join pars chunk.size =
        .ok (((S.take chunk.dataParts).flatten).take chunk.size))
    (hsz : chunk.size ≤ ((S.take chunk.dataParts).flatten).length) :
    (chunk.dataParts ≤ loadSuccessCount repository chunk →
      loadChunk prims newEnc repository chunk =
        decodeChunk prims repository chunk
          (((S.take chunk.dataParts).flatten).take chunk.size)
      ∧ (((S.take chunk.dataParts).flatten).take chunk.size).length =
          chunk.size)
    ∧ (loadSuccessCount repository chunk < chunk.dataParts →
      loadChunk prims newEnc repository chunk =
        .error (.dataReconstruction chunk
          (loadSuccessCount repository chunk)
          (chunk.dataParts - loadSuccessCount repository chunk))) := by
  have hzero : countLoadOk repository chunk 0 = 0 := by
    simp [countLoadOk]
  constructor
  · intro hge
    have hmain := loadChunkRSLoop_spec prims enc repository chunk S hload
      hrec hjoin (chunk.dataParts + chunk.parityParts) 0 (by omega)
      (by rw [hzero]; omega)
    have hinit : loadChunk prims newEnc repository chunk =
        loadChunkRSLoop prims enc repository chunk
          (chunk.dataParts + chunk.parityParts) 0
          (parsUpTo repository chunk 0) (countLoadOk repository chunk 0)
          (0 - countLoadOk repository chunk 0) := by
      unfold loadChunk
      rw [if_pos hp, henc, ← parsUpTo_zero, hzero]
    refine ⟨?_, ?_⟩
    · rw [hinit, hmain, if_pos hge]
    · rw [List.length_take]
      omega
  · intro hlt
    have hmain := loadChunkRSLoop_spec prims enc repository chunk S hload
      hrec hjoin (chunk.dataParts + chunk.parityParts) 0 (by omega)
      (by rw [hzero]; omega)
    have hinit : loadChunk prims newEnc repository chunk =
        loadChunkRSLoop prims enc repository chunk
          (chunk.dataParts + chunk.parityParts) 0
          (parsUpTo repository chunk 0) (countLoadOk repository chunk 0)
          (0 - countLoadOk repository chunk 0) := by
      unfold loadChunk
      rw [if_pos hp, henc, ← parsUpTo_zero, hzero]
    rw [hinit, hmain, if_neg (by omega)]

/-- C2 counterexample (to the claim as stated): a `(2, 1)` chunk on a
repository with no backends.  All 3 shard loads fail; the error carries
`blocks_found = 0` and `failed_backends = 2` (`dataParts - blocks_found`),
not `3` (the number of shard loads that failed), refuting the claim's
reading of `failed_backends`. -/
theorem loadChunk_failedBackends_counterexample :
    loadChunk wPrims wEncStuck wRepoEmpty wChunkRS21 =
      .error (.dataReconstruction wChunkRS21 0 2)
    ∧ loadSuccessCount wRepoEmpty wChunkRS21 = 0
    ∧ wChunkRS21.dataParts + wChunkRS21.parityParts = 3
    ∧ loadChunk wPrims wEncStuck wRepoEmpty wChunkRS21 ≠
      .error (.dataReconstruction wChunkRS21 0 3) := by
  refine ⟨rfl, rfl, rfl, ?_⟩
  intro h
  rw [show loadChunk wPrims wEncStuck wRepoEmpty wChunkRS21 =
    .error (.dataReconstruction wChunkRS21 0 2) from rfl] at h
  simp at h

/-- C2 witness: a `(1, 1)` chunk with true shards `wS = [[7], [7]]` on a
repository whose single backend serves every shard; both loads succeed, so
`loadChunk` decodes the joined buffer `[7]`. -/
theorem loadChunk_erasure_tolerance_witness :
    loadChunk wPrims wNewEnc11 wRepo7 wChunkRS11 = .ok [7]
    ∧ loadSuccessCount wRepo7 wChunkRS11 = 2 := by
  have h := (loadChunk_erasure_tolerance wPrims wNewEnc11 wEnc11 wRepo7
      wChunkRS11 wS (by decide) (by decide) rfl
      (by
        intro i hi s hs
        have hok : wRepo7.backend.LoadChunk wChunkRS11 i = .ok [7] := rfl
        rw [hok] at hs
        injection hs with h2
        subst h2
        have hi2 : i < 2 := hi
        interval_cases i <;> rfl)
      (by intro pars _ _ _; rfl)
      (by
        intro pars hp2
        have hp3 : pars.take 1 = (wS.take 1).map some := hp2
        show wEnc11.join pars wChunkRS11.size = _
        simp only [wEnc11]
        rw [if_pos hp3]
        rfl)
      (by decide)).1 (by decide)
  exact ⟨h.1.trans (by rfl), rfl⟩

/-- C3: with `N ≥ 1` backends and cursor `c < N`, `StoreChunk` places the
`j`-th shard on backend `(c + 1 + j) mod N` (shards are passed with their
index `j` as the `part` argument), leaves the cursor at
`(c + numShards) mod N` (the index of the last backend used) and returns
`chunk.Size`; storing `K` chunks of `S` shards each gives every backend
`b` between `floor(K*S/N)` and `ceil(K*S/N)` shards, with the final cursor
at `(c + K*S) mod N` (the cursor wraps exactly at `N`). -/
theorem storeChunk_round_robin (m : BackendManager) (chunk : Chunk)
    (chunks : List Chunk) (S b : Nat)
    (hc : m.lastUsedBackend < m.backends.length)
    (hok : ∀ (j : Nat) (be : Backend), m.backends[j]? = some be →
      ∀ (a : String) (p q : Nat) (d : List Nat),
        ∃ u, be.storeChunk a p q d = .ok u)
    (hS : ∀ ch ∈ chunks, ch.data.length = S)
    (hb : b < m.backends.length) :
    ((m.StoreChunk chunk).1 =
      (List.range chunk.data.length).map
        (fun j => ((m.lastUsedBackend + 1 + j) % m.backends.length, j)))
    ∧ ((m.StoreChunk chunk).2.1.lastUsedBackend =
        (m.lastUsedBackend + chunk.data.length) % m.backends.length)
    ∧ ((m.StoreChunk chunk).2.2 = .ok chunk.size)
    ∧ (chunks.length * S / m.backends.length ≤
        (StoreChunkSeq m chunks).1.countP (fun pr => pr.1 == b))
    ∧ ((StoreChunkSeq m chunks).1.countP (fun pr => pr.1 == b) ≤
        (chunks.length * S + m.backends.length - 1) / m.backends.length)
    ∧ ((StoreChunkSeq m chunks).2.lastUsedBackend =
        (m.lastUsedBackend + chunks.length * S) % m.backends.length) := by
  obtain ⟨bes, c⟩ := m
  simp only at hc hok hS hb ⊢
  have hn : 0 < bes.length := by omega
  have hgo := storeChunkGo_spec bes chunk.shaSum chunk.dataParts hok
    chunk.data c 0 hc
  have hseq := storeChunkSeq_spec bes hok S chunks c hc hS
  have hcnt : (StoreChunkSeq (BackendManager.mk bes c) chunks).1.countP
      (fun pr => pr.1 == b) =
      (List.range (chunks.length * S)).countP
        (fun t => (c + 1 + t) % bes.length == b) := by
    have h1 : (StoreChunkSeq (BackendManager.mk bes c) chunks).1.countP
        (fun pr => pr.1 == b) =
        ((StoreChunkSeq (BackendManager.mk bes c) chunks).1.map
          Prod.fst).countP (fun x => x == b) := by
      rw [List.countP_map]
      rfl
    rw [h1, hseq.1, List.countP_map]
    rfl
  refine ⟨?_, ?_, ?_, ?_, ?_, ?_⟩
  · simp only [BackendManager.StoreChunk, hgo]
    apply List.map_congr_left
    intro j _
    simp
  · simp only [BackendManager.StoreChunk, hgo]
  · simp only [BackendManager.StoreChunk, hgo]
  · rw [hcnt]
    exact (countP_addConst_mod_bounds bes.length (c + 1) b hn hb _).1
  · rw [hcnt]
    exact (countP_addConst_mod_bounds bes.length (c + 1) b hn hb _).2
  · exact hseq.2

/-- C3 witness: two backends, cursor 0, a chunk with three shards: the
shards go to backends 1, 0, 1 (in shard order) and the cursor ends at 1;
storing that chunk twice gives backend 1 exactly 3 of the 6 shards. -/
theorem storeChunk_round_robin_witness :
    (wMgr2.StoreChunk wChunk3).1 = [(1, 0), (0, 1), (1, 2)]
    ∧ (wMgr2.StoreChunk wChunk3).2.1.lastUsedBackend = 1
    ∧ (StoreChunkSeq wMgr2 [wChunk3, wChunk3]).1.countP
        (fun pr => pr.1 == 1) = 3 := by
  have hok : ∀ (j : Nat) (be : Backend), wMgr2.backends[j]? = some be →
      ∀ (a : String) (p q : Nat) (d : List Nat),
        ∃ u, be.storeChunk a p q d = .ok u := by
    intro j be hbe a p q d
    match j, hbe with
    | 0, hbe =>
      injection hbe with h
      exact h ▸ ⟨1, rfl⟩
    | 1, hbe =>
      injection hbe with h
      exact h ▸ ⟨1, rfl⟩
    | j + 2, hbe => exact absurd hbe (by simp [wMgr2])
  have h := storeChunk_round_robin wMgr2 wChunk3 [wChunk3, wChunk3] 3 1
    (by decide) hok (by decide) (by decide)
  refine ⟨?_, ?_, ?_⟩
  · rw [h.1]
    decide
  · rw [h.2.1]
    decide
  · exact Nat.le_antisymm h.2.2.2.2.1 h.2.2.2.1

end Knoxite
